import Mathlib

/-!
# Verification of the RxCalc quantity/packaging core

Shallow embedding of `src/lib/services/quantity.ts` (class `QuantityCalculator`):
SIG parsing (`parseSIG`), dispense-quantity computation (`calculateDispenseQuantity`)
and NDC package optimization (`optimizeNDCSelection`).

Modelling conventions:
* JavaScript numbers are modelled as exact rationals (`ℚ`); `Math.ceil` is `ceilQ`
  (proved equal to Mathlib's `Int.ceil`).
  Non-finite values (`NaN`, `Infinity`) have no representative, so `isFinite` checks
  of the source hold trivially in the model.
* Strings are processed as `List Char`; `String.toLowerCase` is `Char.toLower`
  (ASCII, as in the source data) and `trim` drops leading/trailing whitespace.
* The regular expressions of the source are embedded as explicit scanners that
  reproduce the leftmost-match / ordered-alternation / greedy semantics of the
  concrete patterns used (`String.prototype.matchAll` with the `g` flag skips the
  matched region; `match` returns the first match only).
* The logging calls of the source have no observable effect and are omitted.
-/

namespace RxCalc

/-- `Math.ceil` on rationals, as an executable definition (`⌈q⌉ = -⌊-q⌋`,
with `⌊q⌋ = q.num / q.den`); proved equal to `Int.ceil` below. -/
def ceilQ (q : ℚ) : ℤ := -((-q).num / ((-q).den : ℤ))

/-- JavaScript `\s` / `trim` whitespace (ASCII part, which is all the source relies on). -/
def isWsJS (c : Char) : Bool :=
  c = ' ' || c = '\t' || c = '\n' || c = '\r' || c = '\x0b' || c = '\x0c'

/-- `sig.toLowerCase().trim()` of the source. -/
def normalizeL (l : List Char) : List Char :=
  ((((l.map Char.toLower).dropWhile isWsJS).reverse).dropWhile isWsJS).reverse

/-- If `pat` is a leading segment of `l`, return the remainder of `l` after it. -/
def afterPfx : List Char → List Char → Option (List Char)
  | [], l => some l
  | _ :: _, [] => none
  | a :: as, b :: bs => if a = b then afterPfx as bs else none

/-- Substring test: does `pat` occur contiguously inside `l`?  (JS `String.includes`
and any regex that is a plain alternation of literals.) -/
def hasSub (pat : List Char) : List Char → Bool
  | [] => (afterPfx pat []).isSome
  | c :: t => (afterPfx pat (c :: t)).isSome || hasSub pat t

/-- Does `t` contain one of the literal alternatives `pats`? -/
def hasAny (t : List Char) (pats : List String) : Bool :=
  pats.any fun p => hasSub p.data t

/-- Numeric value of a decimal-digit character. -/
def digitVal (c : Char) : ℕ := c.toNat - 48

/-- `parseInt` / integer part of `parseFloat` on a digit string. -/
def natOfDigits (l : List Char) : ℕ := l.foldl (fun a c => 10 * a + digitVal c) 0

/-- Consume one-or-more whitespace characters (`\s+`, greedy), returning the rest. -/
def ws1 : List Char → Option (List Char)
  | [] => none
  | c :: t => if isWsJS c then some (t.dropWhile isWsJS) else none

/-- Match `\d+(?:\.\d+)?` at the current position (greedy, as in the source
patterns, where greediness and backtracking coincide) and `parseFloat` the match. -/
def numTok (l : List Char) : Option (ℚ × List Char) :=
  let d := l.takeWhile Char.isDigit
  let r := l.dropWhile Char.isDigit
  if d.isEmpty then none
  else
    match r with
    | '.' :: r2 =>
      let f := r2.takeWhile Char.isDigit
      if f.isEmpty then some ((natOfDigits d : ℚ), r)
      else some ((natOfDigits d : ℚ) + (natOfDigits f : ℚ) / 10 ^ f.length, r2.dropWhile Char.isDigit)
    | _ => some ((natOfDigits d : ℚ), r)

/-- The unit alternation `(tablet|tablets|capsule|capsules|pill|pills|ml|mg|g|dose)`,
in source order (regex alternation is ordered, not longest-match). -/
def unitAlts : List (List Char) :=
  ["tablet", "tablets", "capsule", "capsules", "pill", "pills", "ml", "mg", "g", "dose"].map
    String.data

/-- First alternative of `alts` that matches at the head of `l` (ordered alternation
with nothing left to match afterwards). -/
def firstPfxOf : List (List Char) → List Char → Option (List Char × List Char)
  | [], _ => none
  | u :: us, l =>
    match afterPfx u l with
    | some r => some (u, r)
    | none => firstPfxOf us l

/-- The `(?:take|by mouth|po|oral)` alternation of the second dosage pattern. -/
def kwAlts : List (List Char) := ["take", "by mouth", "po", "oral"].map String.data

/-- Continuation of the second dosage pattern after the unit: `\s+(?:take|by mouth|po|oral)`. -/
def contP2 (l : List Char) : Option (List Char) :=
  match ws1 l with
  | some r =>
    match firstPfxOf kwAlts r with
    | some p => some p.2
    | none => none
  | none => none

/-- Unit alternation of the second pattern with backtracking into the continuation:
the first alternative whose continuation also matches wins (so `tablets` can win
over `tablet` when only the plural is followed by whitespace). -/
def firstUnitCont : List (List Char) → List Char → Option (List Char × List Char)
  | [], _ => none
  | u :: us, l =>
    match afterPfx u l with
    | some r =>
      match contP2 r with
      | some r2 => some (u, r2)
      | none => firstUnitCont us l
    | none => firstUnitCont us l

/-- Match dosage pattern 1,
`take\s+(\d+(?:\.\d+)?)\s+(tablet|tablets|...|dose)`, at the current position.
Returns (amount, unit string, rest after the match). -/
def pat1At (l : List Char) : Option (ℚ × List Char × List Char) :=
  match afterPfx "take".data l with
  | none => none
  | some l1 =>
    match ws1 l1 with
    | none => none
    | some l2 =>
      match numTok l2 with
      | none => none
      | some (q, l3) =>
        match ws1 l3 with
        | none => none
        | some l4 =>
          match firstPfxOf unitAlts l4 with
          | none => none
          | some (u, r) => some (q, u, r)

/-- Match dosage pattern 2,
`(\d+(?:\.\d+)?)\s+(tablet|...|dose)\s+(?:take|by mouth|po|oral)`, at the current position. -/
def pat2At (l : List Char) : Option (ℚ × List Char × List Char) :=
  match numTok l with
  | none => none
  | some (q, l1) =>
    match ws1 l1 with
    | none => none
    | some l2 =>
      match firstUnitCont unitAlts l2 with
      | none => none
      | some (u, r) => some (q, u, r)

/-- `matchAll` scan: try the matcher at every position, left to right, skipping
each matched region (`g` flag, non-overlapping matches).  Fuelled by the length
of the list so that the recursion is structural. -/
def scanF (pAt : List Char → Option (ℚ × List Char × List Char)) :
    ℕ → List Char → List (ℚ × List Char)
  | 0, _ => []
  | _ + 1, [] => []
  | f + 1, c :: t =>
    match pAt (c :: t) with
    | some (q, u, r) => (q, u) :: scanF pAt f r
    | none => scanF pAt f t

/-- All matches of a dosage pattern in `l` (`[...normalizedSIG.matchAll(pattern)]`). -/
def matchAll (pAt : List Char → Option (ℚ × List Char × List Char)) (l : List Char) :
    List (ℚ × List Char) :=
  scanF pAt l.length l

/-- First match of the bare-number fallback regex `(\d+(?:\.\d+)?)`. -/
def findNum : List Char → Option ℚ
  | [] => none
  | c :: t =>
    if c.isDigit then (numTok (c :: t)).map Prod.fst
    else findNum t

/-- The written-number alternation `(one|two|...|ten)` with its value table. -/
def writtenTable : List (List Char × ℕ) :=
  [("one", 1), ("two", 2), ("three", 3), ("four", 4), ("five", 5),
   ("six", 6), ("seven", 7), ("eight", 8), ("nine", 9), ("ten", 10)].map
    fun p => (p.1.data, p.2)

/-- First entry of `table` that matches at the head of `l`. -/
def firstKeyOf : List (List Char × ℕ) → List Char → Option ℕ
  | [], _ => none
  | (w, n) :: ws, l =>
    match afterPfx w l with
    | some _ => some n
    | none => firstKeyOf ws l

/-- First match of the written-number regex (leftmost position, ordered alternation). -/
def findWritten : List Char → Option ℕ
  | [] => none
  | c :: t =>
    match firstKeyOf writtenTable (c :: t) with
    | some n => some n
    | none => findWritten t

/-- First match of `every (\d+) hours`, returning the captured number. -/
def findEvery : List Char → Option ℕ
  | [] => none
  | c :: t =>
    match afterPfx "every ".data (c :: t) with
    | some r =>
      let d := r.takeWhile Char.isDigit
      if d.isEmpty then findEvery t
      else
        match afterPfx " hours".data (r.dropWhile Char.isDigit) with
        | some _ => some (natOfDigits d)
        | none => findEvery t
    | none => findEvery t

/-- First match of `(\d+) times daily`, returning the captured number. -/
def findTimesDaily : List Char → Option ℕ
  | [] => none
  | c :: t =>
    let d := (c :: t).takeWhile Char.isDigit
    if d.isEmpty then findTimesDaily t
    else
      match afterPfx " times daily".data ((c :: t).dropWhile Char.isDigit) with
      | some _ => some (natOfDigits d)
      | none => findTimesDaily t

/-- One parsed dosing clause (`DosageInstruction` of `types/quantity.ts`). -/
structure DosageInstruction where
  amount : ℚ
  unit : String
  frequency : ℕ
  timing : Option String
  route : Option String
deriving DecidableEq

/-- `ParsedSIG` of `types/quantity.ts`. -/
structure ParsedSIG where
  originalSIG : String
  dosageInstructions : List DosageInstruction
  totalDailyDose : ℚ
  dailyFrequency : ℕ
  prn : Bool
deriving DecidableEq

/-- `QuantityCalculationResult` of `types/quantity.ts`. -/
structure QuantityCalculationResult where
  success : Bool
  totalQuantity : ℤ
  unit : String
  sig : ParsedSIG
  daysSupply : ℚ
  error : Option String
deriving DecidableEq

/-- `NDCPackageInfo` of `types/ndc.ts` (catalog entry supplied by the caller). -/
structure NDCPackageInfo where
  product_ndc : String
  package_ndc : String
  description : String
  size : ℚ
  status : String
  isSample : Bool
  marketingStartDate : String
  marketingEndDate : Option String
deriving DecidableEq

/-- `NDCCandidate` of `types/quantity.ts`. -/
structure NDCCandidate where
  ndc : String
  packageSize : ℚ
  packageDescription : String
  status : String
  quantityNeeded : ℚ
  packagesRequired : ℤ
  efficiency : ℚ
deriving DecidableEq

/-- `OptimizedNDCResult` of `types/quantity.ts`. -/
structure OptimizedNDCResult where
  success : Bool
  candidates : List NDCCandidate
  optimalCombination : List NDCCandidate
  totalQuantity : ℚ
  totalPackages : ℤ
  waste : ℚ
  error : Option String
deriving DecidableEq

/-- Result of `extractFrequency`. -/
structure FreqInfo where
  timesPerDay : ℕ
  timing : Option String
deriving DecidableEq

/-- The ordered timing vocabulary of `extractTiming`. -/
def timingPats : List String :=
  ["with food", "with meals", "without food", "empty stomach", "morning",
   "evening", "night", "bedtime", "as needed", "prn"]

/-- `extractTiming` of the source: first vocabulary entry contained in the text. -/
def extractTiming (t : List Char) : Option String :=
  timingPats.find? fun p => hasSub p.data t

/-- The `X times daily` tail of `extractFrequency` (reached when no specific
pattern and no positive `every X hours` matched). -/
def tdBranch (t : List Char) : FreqInfo :=
  match findTimesDaily t with
  | some n => ⟨n, extractTiming t⟩
  | none => ⟨1, none⟩

/-- `extractFrequency` of the source: ordered specific patterns, then
`every X hours` (guarded by `hours > 0`), then `X times daily`, default 1. -/
def extractFrequency (t : List Char) : FreqInfo :=
  if hasAny t ["three times daily", "tid", "t.i.d."] then ⟨3, extractTiming t⟩
  else if hasAny t ["four times daily", "qid", "q.i.d."] then ⟨4, extractTiming t⟩
  else if hasAny t ["twice daily", "two times daily", "bid", "b.i.d."] then ⟨2, extractTiming t⟩
  else if hasAny t ["once daily", "once a day", "qday", "q.d."] then ⟨1, extractTiming t⟩
  else
    match findEvery t with
    | some h =>
      if 0 < h then ⟨(ceilQ ((24 : ℚ) / h)).toNat, extractTiming t⟩
      else tdBranch t
    | none => tdBranch t

/-- `extractRoute` of the source: ordered route patterns, unanchored substring match. -/
def extractRoute (t : List Char) : Option String :=
  if hasAny t ["by mouth", "oral", "po"] then some "PO"
  else if hasAny t ["intravenous", "iv"] then some "IV"
  else if hasAny t ["intramuscular", "im"] then some "IM"
  else if hasAny t ["topical"] then some "TOPICAL"
  else if hasAny t ["subcutaneous", "subq", "sc"] then some "SQ"
  else none

/-- `unit.replace(/s$/, '')` of the source: strip one trailing `s`. -/
def stripS (u : List Char) : List Char :=
  match u.getLast? with
  | some 's' => u.dropLast
  | _ => u

/-- The PRN phrase list of the source (`as needed`, `prn`, `p.r.n.`). -/
def prnPhrases : List String := ["as needed", "prn", "p.r.n."]

/-- The match list of the `dosagePatterns` loop: the first pattern that yields at
least one match wins (`break` after the first non-empty `matchAll`). -/
def sigMatches (t : List Char) : List (ℚ × List Char) :=
  let m1 := matchAll pat1At t
  if m1.isEmpty then matchAll pat2At t else m1

/-- The fallback amount: first bare numeral, else first written number, else 0. -/
def fallbackAmount (t : List Char) : ℚ :=
  match findNum t with
  | some q => q
  | none =>
    match findWritten t with
    | some n => (n : ℚ)
    | none => 0

/-- Body of `parseSIG` on the normalized text: returns
(instructions, totalDailyDose, dailyFrequency). -/
def parseSIGL (t : List Char) : List DosageInstruction × ℚ × ℕ :=
  let freq := extractFrequency t
  let ms := sigMatches t
  if ms.isEmpty then
    -- fallback path: emit a single default-unit instruction iff the amount is positive
    let a := fallbackAmount t
    if 0 < a then
      ([{ amount := a, unit := "tablet", frequency := freq.timesPerDay,
          timing := freq.timing, route := extractRoute t }],
       a * freq.timesPerDay, freq.timesPerDay)
    else ([], 0, 1)
  else
    (ms.map fun m =>
      { amount := m.1, unit := String.mk (stripS m.2), frequency := freq.timesPerDay,
        timing := freq.timing, route := extractRoute t },
     ms.foldl (fun acc m => acc + m.1 * freq.timesPerDay) 0,
     max 1 freq.timesPerDay)

/-- `parseSIG` of the source. -/
def parseSIG (sig : String) : ParsedSIG :=
  let t := normalizeL sig.data
  let r := parseSIGL t
  { originalSIG := sig, dosageInstructions := r.1, totalDailyDose := r.2.1,
    dailyFrequency := r.2.2, prn := hasAny t prnPhrases }

/-- `calculateDispenseQuantity` of the source.  The `try`/`catch` of the source is
not represented: no operation of the body can throw, so the `catch` arm is dead. -/
def calculateDispenseQuantity (sig : String) (daysSupply : ℚ) : QuantityCalculationResult :=
  let p := parseSIG sig
  match p.dosageInstructions with
  | [] =>
    { success := false, totalQuantity := 0, unit := "", sig := p,
      daysSupply := daysSupply, error := some "Could not parse dosage instructions from SIG" }
  | i :: _ =>
    let totalQuantity := p.totalDailyDose * daysSupply
    let adjusted :=
      if p.prn then max (totalQuantity * (7 / 10)) (totalQuantity - 10) else totalQuantity
    { success := true, totalQuantity := ceilQ adjusted, unit := i.unit, sig := p,
      daysSupply := daysSupply, error := none }

/-- `calculateEfficiency` of the source: waste as a fraction of the quantity needed. -/
def calculateEfficiency (quantityNeeded packageSize : ℚ) : ℚ :=
  let packagesRequired : ℤ := ceilQ (quantityNeeded / packageSize)
  let totalProvided : ℚ := packagesRequired * packageSize
  (totalProvided - quantityNeeded) / quantityNeeded

/-- Candidate construction inside `optimizeNDCSelection`. -/
def mkCandidate (q : ℚ) (ndc : NDCPackageInfo) : NDCCandidate :=
  { ndc := ndc.package_ndc, packageSize := ndc.size,
    packageDescription :=
      if ndc.description = "" then "Package description unavailable" else ndc.description,
    status := ndc.status, quantityNeeded := q,
    packagesRequired := ceilQ (q / ndc.size), efficiency := calculateEfficiency q ndc.size }

/-- One step of the best-candidate loop of `findOptimalCombination`: keep the
candidate with strictly smaller recomputed efficiency (ties keep the earlier one). -/
def bestCand (q : ℚ) (b : NDCCandidate × ℚ) (c : NDCCandidate) : NDCCandidate × ℚ :=
  let e := calculateEfficiency q c.packageSize
  if e < b.2 then (c, e) else b

/-- `findOptimalCombination` of the source: single best candidate by recomputed
efficiency, fields recomputed in place on the selected candidate. -/
def findOptimalCombination (q : ℚ) (candidates : List NDCCandidate) : List NDCCandidate :=
  match candidates with
  | [] => []
  | c0 :: rest =>
    let b := (c0 :: rest).foldl (bestCand q) (c0, calculateEfficiency q c0.packageSize)
    [{ b.1 with packagesRequired := ceilQ (q / b.1.packageSize), efficiency := b.2 }]

/-- The active/valid filter of `optimizeNDCSelection`:
`status === 'active' && size && size > 0 && isFinite(size) && package_ndc`.
(`size` truthiness and `isFinite` are subsumed by `0 < size` on rationals;
string truthiness of `package_ndc` is non-emptiness.) -/
def ndcFilter (n : NDCPackageInfo) : Bool :=
  decide (n.status = "active" ∧ 0 < n.size ∧ n.package_ndc ≠ "")

/-- The candidate list of `optimizeNDCSelection`: filtered, scored, and sorted
ascending by efficiency (JS `sort` is stable; `insertionSort` with `≤` is stable). -/
def sortedCandidates (q : ℚ) (ndcs : List NDCPackageInfo) : List NDCCandidate :=
  List.insertionSort (fun a b => a.efficiency ≤ b.efficiency)
    ((ndcs.filter ndcFilter).map (mkCandidate q))

/-- `optimizeNDCSelection` of the source.  As in `calculateDispenseQuantity`, the
`catch` arm is dead and not represented. -/
def optimizeNDCSelection (quantityNeeded : ℚ) (availableNDCs : List NDCPackageInfo) :
    OptimizedNDCResult :=
  if quantityNeeded ≤ 0 then
    { success := false, candidates := [], optimalCombination := [], totalQuantity := 0,
      totalPackages := 0, waste := 0,
      error := some "Invalid quantity needed for optimization" }
  else if availableNDCs.isEmpty then
    { success := false, candidates := [], optimalCombination := [], totalQuantity := 0,
      totalPackages := 0, waste := 0,
      error := some "No NDC data available for optimization" }
  else if (availableNDCs.filter ndcFilter).isEmpty then
    { success := false, candidates := [], optimalCombination := [], totalQuantity := 0,
      totalPackages := 0, waste := 0,
      error := some "No valid active NDCs available for optimization" }
  else
    let candidates := sortedCandidates quantityNeeded availableNDCs
    let optimalCombination := findOptimalCombination quantityNeeded candidates
    let totalPackages := optimalCombination.foldl (fun s c => s + c.packagesRequired) 0
    let totalProvided :=
      optimalCombination.foldl (fun s c => s + (c.packagesRequired : ℚ) * c.packageSize) 0
    let waste := max 0 (totalProvided - quantityNeeded)
    { success := true, candidates := candidates, optimalCombination := optimalCombination,
      totalQuantity := quantityNeeded, totalPackages := totalPackages, waste := waste,
      error := none }

/-- Catalog entry shaped like the test fixtures (`tests/quantity.test.ts`). -/
def mkPkg (code : String) (sz : ℚ) (st : String) : NDCPackageInfo :=
  { product_ndc := code, package_ndc := code, description := code,
    size := sz, status := st, isSample := false,
    marketingStartDate := "2020-01-01", marketingEndDate := none }

/-- The three-active-package catalog of the C1 scenario (sizes 100, 30, 500). -/
def catalogC1 : List NDCPackageInfo :=
  [mkPkg "12345-101-01" 100 "active", mkPkg "12345-101-02" 30 "active",
   mkPkg "12345-101-03" 500 "active"]

/-- A single inactive catalog entry (for the filter-failure scenarios). -/
def inactivePkg : NDCPackageInfo := mkPkg "12345-101-04" 60 "inactive"

/-- A single active exact-fit package of size 60. -/
def exactPkg60 : NDCPackageInfo := mkPkg "11111-222-60" 60 "active"

/-- The single instruction that `parseSIG` extracts from
`"Take 1 tablet 0 times daily"` (frequency 0; `"im"` occurs inside `"times"`). -/
def c8Instr : DosageInstruction :=
  { amount := 1, unit := "tablet", frequency := 0, timing := none, route := some "IM" }

/-- Decimal digit character for `k < 10`. -/
def digChar (k : ℕ) : Char := Char.ofNat (48 + k)

/-- Fuelled most-significant-first decimal rendering (fuel ≥ n suffices). -/
def mdF : ℕ → ℕ → List Char → List Char
  | 0, _, acc => acc
  | f + 1, n, acc => if n = 0 then acc else mdF f (n / 10) (digChar (n % 10) :: acc)

/-- Decimal numeral of `n` (empty for 0; only used for positive amounts). -/
def myDigits (n : ℕ) : List Char := mdF (n + 1) n []

def freqTable : List (String × ℕ) :=
  [("once daily", 1), ("twice daily", 2), ("three times daily", 3), ("four times daily", 4)]

def mkSIG (amount : ℕ) (plural : Bool) (fp : String) : String :=
  String.mk ("Take ".data ++ myDigits amount ++
    ((if plural then " tablets ".data else " tablet ".data) ++ fp.data))

/-! ## Theorems -/

-- Batteries marks the rational operations `@[irreducible]`, which blocks `decide`
-- on concrete runs of the embedded code; restore the default reducibility here.
attribute [local semireducible] Rat.mul Rat.add Rat.sub Rat.inv

/-- `ceilQ` is Mathlib's ceiling. -/
theorem ceilQ_eq (q : ℚ) : ceilQ q = ⌈q⌉ := by
  unfold ceilQ
  rw [← Rat.floor_def, Int.floor_neg, neg_neg]

theorem parseSIGL_main (t : List Char) (h : (sigMatches t).isEmpty = false) :
    parseSIGL t =
      ((sigMatches t).map fun m =>
        { amount := m.1, unit := String.mk (stripS m.2),
          frequency := (extractFrequency t).timesPerDay,
          timing := (extractFrequency t).timing, route := extractRoute t },
       (sigMatches t).foldl (fun acc m => acc + m.1 * ((extractFrequency t).timesPerDay : ℚ)) (0 : ℚ),
       max 1 (extractFrequency t).timesPerDay) := by
  unfold parseSIGL
  simp [h]

theorem parseSIGL_fb_pos (t : List Char) (h : (sigMatches t).isEmpty = true)
    (ha : 0 < fallbackAmount t) :
    parseSIGL t =
      ([{ amount := fallbackAmount t, unit := "tablet",
          frequency := (extractFrequency t).timesPerDay,
          timing := (extractFrequency t).timing, route := extractRoute t }],
       fallbackAmount t * (extractFrequency t).timesPerDay,
       (extractFrequency t).timesPerDay) := by
  unfold parseSIGL
  simp [h, ha]

theorem parseSIGL_fb_zero (t : List Char) (h : (sigMatches t).isEmpty = true)
    (ha : ¬ 0 < fallbackAmount t) :
    parseSIGL t = ([], 0, 1) := by
  unfold parseSIGL
  simp [h, ha]

theorem parseSIGL_dose_zero_of_empty (t : List Char) (h : (parseSIGL t).1 = []) :
    (parseSIGL t).2.1 = 0 := by
  by_cases hm : (sigMatches t).isEmpty
  · by_cases ha : 0 < fallbackAmount t
    · rw [parseSIGL_fb_pos t hm ha] at h
      simp at h
    · rw [parseSIGL_fb_zero t hm ha]
  · rw [parseSIGL_main t (by simpa using hm)] at h ⊢
    simp at h
    simp [h]

theorem calculateDispenseQuantity_cons (s : String) (d : ℚ) (i : DosageInstruction)
    (rest : List DosageInstruction) (h : (parseSIG s).dosageInstructions = i :: rest) :
    calculateDispenseQuantity s d =
      { success := true,
        totalQuantity := ceilQ (if (parseSIG s).prn then
            max ((parseSIG s).totalDailyDose * d * (7 / 10))
              ((parseSIG s).totalDailyDose * d - 10)
          else (parseSIG s).totalDailyDose * d),
        unit := i.unit, sig := parseSIG s, daysSupply := d, error := none } := by
  unfold calculateDispenseQuantity
  dsimp only
  rw [h]

theorem calculateDispenseQuantity_nil (s : String) (d : ℚ)
    (h : (parseSIG s).dosageInstructions = []) :
    calculateDispenseQuantity s d =
      { success := false, totalQuantity := 0, unit := "", sig := parseSIG s,
        daysSupply := d, error := some "Could not parse dosage instructions from SIG" } := by
  unfold calculateDispenseQuantity
  dsimp only
  rw [h]

theorem numTok_nonneg {l : List Char} {q : ℚ} {r : List Char}
    (h : numTok l = some (q, r)) : 0 ≤ q := by
  unfold numTok at h
  dsimp only at h
  split at h
  · simp at h
  · split at h
    · split at h
      · simp at h
        obtain ⟨h1, -⟩ := h
        subst h1
        positivity
      · simp at h
        obtain ⟨h1, -⟩ := h
        subst h1
        positivity
    · simp at h
      obtain ⟨h1, -⟩ := h
      subst h1
      positivity

theorem pat1At_nonneg {l : List Char} {q : ℚ} {u r : List Char}
    (h : pat1At l = some (q, u, r)) : 0 ≤ q := by
  unfold pat1At at h
  cases h1 : afterPfx "take".data l with
  | none => rw [h1] at h; simp at h
  | some l1 =>
    rw [h1] at h
    dsimp only at h
    cases h2 : ws1 l1 with
    | none => rw [h2] at h; simp at h
    | some l2 =>
      rw [h2] at h
      dsimp only at h
      cases h3 : numTok l2 with
      | none => rw [h3] at h; simp at h
      | some v =>
        obtain ⟨q0, l3⟩ := v
        rw [h3] at h
        dsimp only at h
        cases h4 : ws1 l3 with
        | none => rw [h4] at h; simp at h
        | some l4 =>
          rw [h4] at h
          dsimp only at h
          cases h5 : firstPfxOf unitAlts l4 with
          | none => rw [h5] at h; simp at h
          | some w =>
            obtain ⟨u0, r0⟩ := w
            rw [h5] at h
            simp at h
            obtain ⟨hq, -, -⟩ := h
            subst hq
            exact numTok_nonneg h3

theorem pat2At_nonneg {l : List Char} {q : ℚ} {u r : List Char}
    (h : pat2At l = some (q, u, r)) : 0 ≤ q := by
  unfold pat2At at h
  cases h3 : numTok l with
  | none => rw [h3] at h; simp at h
  | some v =>
    obtain ⟨q0, l1⟩ := v
    rw [h3] at h
    dsimp only at h
    cases h2 : ws1 l1 with
    | none => rw [h2] at h; simp at h
    | some l2 =>
      rw [h2] at h
      dsimp only at h
      cases h5 : firstUnitCont unitAlts l2 with
      | none => rw [h5] at h; simp at h
      | some w =>
        obtain ⟨u0, r0⟩ := w
        rw [h5] at h
        simp at h
        obtain ⟨hq, -, -⟩ := h
        subst hq
        exact numTok_nonneg h3

theorem scanF_amount_nonneg {pAt : List Char → Option (ℚ × List Char × List Char)}
    (hp : ∀ l q u r, pAt l = some (q, u, r) → 0 ≤ q) :
    ∀ (f : ℕ) (l : List Char) (m : ℚ × List Char), m ∈ scanF pAt f l → 0 ≤ m.1 := by
  intro f
  induction f with
  | zero => intro l m hm; simp [scanF] at hm
  | succ f ih =>
    intro l m hm
    cases l with
    | nil => simp [scanF] at hm
    | cons c t =>
      rw [scanF] at hm
      cases hp2 : pAt (c :: t) with
      | none =>
        rw [hp2] at hm
        exact ih t m hm
      | some v =>
        obtain ⟨q, u, r⟩ := v
        rw [hp2] at hm
        dsimp only at hm
        rcases List.mem_cons.mp hm with h1 | h2
        · subst h1; exact hp _ _ _ _ hp2
        · exact ih r m h2

theorem sigMatches_amount_nonneg (t : List Char) :
    ∀ m ∈ sigMatches t, 0 ≤ m.1 := by
  intro m hm
  unfold sigMatches at hm
  dsimp only at hm
  split at hm
  · exact scanF_amount_nonneg (fun _ _ _ _ h => pat2At_nonneg h) _ _ m hm
  · exact scanF_amount_nonneg (fun _ _ _ _ h => pat1At_nonneg h) _ _ m hm

theorem foldl_dose_nonneg (k : ℚ) (hk : 0 ≤ k) :
    ∀ (ms : List (ℚ × List Char)), (∀ m ∈ ms, 0 ≤ m.1) →
      ∀ acc : ℚ, 0 ≤ acc → 0 ≤ ms.foldl (fun acc m => acc + m.1 * k) acc := by
  intro ms
  induction ms with
  | nil => intro _ acc hacc; simpa using hacc
  | cons m t ih =>
    intro hms acc hacc
    rw [List.foldl_cons]
    exact ih (fun x hx => hms x (List.mem_cons_of_mem m hx)) _
      (by have := hms m (List.mem_cons_self m t); positivity)

theorem parseSIG_instr (s : String) :
    (parseSIG s).dosageInstructions = (parseSIGL (normalizeL s.data)).1 := rfl

theorem parseSIG_dose (s : String) :
    (parseSIG s).totalDailyDose = (parseSIGL (normalizeL s.data)).2.1 := rfl

theorem parseSIG_prn (s : String) :
    (parseSIG s).prn = hasAny (normalizeL s.data) prnPhrases := rfl

theorem totalDailyDose_nonneg (s : String) : 0 ≤ (parseSIG s).totalDailyDose := by
  rw [parseSIG_dose]
  set t := normalizeL s.data with ht
  by_cases hm : (sigMatches t).isEmpty
  · by_cases ha : 0 < fallbackAmount t
    · rw [parseSIGL_fb_pos t hm ha]
      have : (0 : ℚ) ≤ fallbackAmount t := le_of_lt ha
      positivity
    · rw [parseSIGL_fb_zero t hm ha]
  · rw [parseSIGL_main t (by simpa using hm)]
    exact foldl_dose_nonneg _ (by positivity) _ (sigMatches_amount_nonneg t) 0 le_rfl

/-- Claim C6: for every input string, `parseSIG` is total (never throws) and, when no
dose amount can be determined (empty `dosageInstructions`), it returns
`totalDailyDose = 0`; in that case `calculateDispenseQuantity` on the same text and
any days supply returns `success = false`, `totalQuantity = 0`, with error message
`"Could not parse dosage instructions from SIG"` and no exception. -/
theorem c6_unparseable (s : String) (d : ℚ)
    (h : (parseSIG s).dosageInstructions = []) :
    (parseSIG s).totalDailyDose = 0 ∧
    (calculateDispenseQuantity s d).success = false ∧
    (calculateDispenseQuantity s d).totalQuantity = 0 ∧
    (calculateDispenseQuantity s d).error =
      some "Could not parse dosage instructions from SIG" := by
  refine ⟨?_, ?_, ?_, ?_⟩
  · rw [parseSIG_dose]
    exact parseSIGL_dose_zero_of_empty _ (by rw [← parseSIG_instr]; exact h)
  all_goals rw [calculateDispenseQuantity_nil s d h]

theorem c6_unparseable_witness :
    (parseSIG "Invalid SIG format").dosageInstructions = [] ∧
    (parseSIG "Invalid SIG format").totalDailyDose = 0 ∧
    (calculateDispenseQuantity "Invalid SIG format" 30).success = false ∧
    (calculateDispenseQuantity "Invalid SIG format" 30).totalQuantity = 0 ∧
    (calculateDispenseQuantity "Invalid SIG format" 30).error =
      some "Could not parse dosage instructions from SIG" :=
  ⟨by decide, c6_unparseable "Invalid SIG format" 30 (by decide)⟩

/-- Claim C2: for every instruction text containing a PRN phrase (`as needed`, `prn`
or `p.r.n.` — exactly `parseSIG`'s PRN detection on the normalized text) that parses
to at least one dosage instruction, and every days supply, `calculateDispenseQuantity`
returns `totalQuantity = ceil(max(raw * 0.7, raw - 10))` with
`raw = totalDailyDose * daysSupply`.  The witness instantiates the particular case
`computeQuantity("Take 1 tablet by mouth twice daily as needed", 30) = 50`. -/
theorem c2_prn_quantity (s : String) (d : ℚ)
    (hprn : hasAny (normalizeL s.data) prnPhrases = true)
    (h : (parseSIG s).dosageInstructions ≠ []) :
    (calculateDispenseQuantity s d).totalQuantity =
      ⌈max ((parseSIG s).totalDailyDose * d * (7 / 10))
           ((parseSIG s).totalDailyDose * d - 10)⌉ := by
  obtain ⟨i, rest, hi⟩ := List.exists_cons_of_ne_nil h
  rw [calculateDispenseQuantity_cons s d i rest hi]
  have hp : (parseSIG s).prn = true := by rw [parseSIG_prn]; exact hprn
  simp only [hp, if_true, ceilQ_eq]

theorem c2_prn_quantity_witness :
    hasAny (normalizeL ("Take 1 tablet by mouth twice daily as needed").data) prnPhrases = true ∧
    (parseSIG "Take 1 tablet by mouth twice daily as needed").dosageInstructions ≠ [] ∧
    (calculateDispenseQuantity "Take 1 tablet by mouth twice daily as needed" 30).totalQuantity
      = 50 := by
  refine ⟨by decide, by decide, ?_⟩
  have h := c2_prn_quantity "Take 1 tablet by mouth twice daily as needed" 30
    (by decide) (by decide)
  rw [h, show (parseSIG "Take 1 tablet by mouth twice daily as needed").totalDailyDose = 2
    from by decide]
  norm_num

/-- Claim C9: for every instruction text that parses to at least one dosage
instruction and every days supply ≤ 0, `calculateDispenseQuantity` returns
`success = true` with `totalQuantity ≤ 0` — non-positive days supply is not
rejected or special-cased. -/
theorem c9_nonpositive_days (s : String) (d : ℚ)
    (h : (parseSIG s).dosageInstructions ≠ []) (hd : d ≤ 0) :
    (calculateDispenseQuantity s d).success = true ∧
    (calculateDispenseQuantity s d).totalQuantity ≤ 0 := by
  obtain ⟨i, rest, hi⟩ := List.exists_cons_of_ne_nil h
  rw [calculateDispenseQuantity_cons s d i rest hi]
  refine ⟨rfl, ?_⟩
  have hdose := totalDailyDose_nonneg s
  have hraw : (parseSIG s).totalDailyDose * d ≤ 0 :=
    mul_nonpos_iff.mpr (Or.inl ⟨hdose, hd⟩)
  have hadj : (if (parseSIG s).prn then
      max ((parseSIG s).totalDailyDose * d * (7 / 10))
        ((parseSIG s).totalDailyDose * d - 10)
    else (parseSIG s).totalDailyDose * d) ≤ 0 := by
    split
    · exact max_le (by nlinarith) (by linarith)
    · exact hraw
  simp only [ceilQ_eq]
  exact_mod_cast Int.ceil_le.mpr (by exact_mod_cast hadj)

theorem c9_nonpositive_days_witness :
    (parseSIG "Take 1 tablet daily").dosageInstructions ≠ [] ∧ ((-5 : ℚ) ≤ 0) ∧
    (calculateDispenseQuantity "Take 1 tablet daily" (-5)).success = true ∧
    (calculateDispenseQuantity "Take 1 tablet daily" (-5)).totalQuantity ≤ 0 :=
  ⟨by decide, by norm_num,
    c9_nonpositive_days "Take 1 tablet daily" (-5) (by decide) (by norm_num)⟩


theorem instr_frequency (s : String) (i : DosageInstruction)
    (h : i ∈ (parseSIG s).dosageInstructions) :
    i.frequency = (extractFrequency (normalizeL s.data)).timesPerDay := by
  rw [parseSIG_instr] at h
  set t := normalizeL s.data with ht
  by_cases hm : (sigMatches t).isEmpty
  · by_cases ha : 0 < fallbackAmount t
    · rw [parseSIGL_fb_pos t hm ha] at h
      simp at h
      rw [h]
    · rw [parseSIGL_fb_zero t hm ha] at h
      simp at h
  · rw [parseSIGL_main t (by simpa using hm)] at h
    simp only [List.mem_map] at h
    obtain ⟨m, -, hmi⟩ := h
    rw [← hmi]

theorem extractFrequency_pos_or (t : List Char) :
    1 ≤ (extractFrequency t).timesPerDay ∨
    ((extractFrequency t).timesPerDay = 0 ∧ findTimesDaily t = some 0) := by
  have htd : 1 ≤ (tdBranch t).timesPerDay ∨
      ((tdBranch t).timesPerDay = 0 ∧ findTimesDaily t = some 0) := by
    unfold tdBranch
    cases hf : findTimesDaily t with
    | none => left; exact le_refl 1
    | some n =>
      cases n with
      | zero => right; exact ⟨rfl, rfl⟩
      | succ k => left; exact Nat.succ_le_succ (Nat.zero_le k)
  unfold extractFrequency
  split
  · left; dsimp only; omega
  · split
    · left; dsimp only; omega
    · split
      · left; dsimp only; omega
      · split
        · left; dsimp only; omega
        · cases he : findEvery t with
          | none => exact htd
          | some hrs =>
            dsimp only
            split
            · left
              rename_i hpos
              have h24 : (0 : ℚ) < 24 / (hrs : ℚ) := by positivity
              have : (0 : ℤ) < ⌈(24 : ℚ) / (hrs : ℚ)⌉ := Int.ceil_pos.mpr h24
              simp only [ceilQ_eq]
              omega
            · exact htd

/-- Claim C8, as stated, is false: not every `DosageInstruction` produced by
`parseSIG` has a positive frequency — `"Take 1 tablet 0 times daily"` yields an
instruction with frequency 0. -/
theorem c8_claim_false :
    ¬ ∀ (s : String), ∀ i ∈ (parseSIG s).dosageInstructions, 1 ≤ i.frequency := by
  intro hall
  have h0 := hall "Take 1 tablet 0 times daily" c8Instr (by decide)
  exact absurd h0 (by decide)

/-- Claim C8 amended: every `DosageInstruction` in the result of `parseSIG` has a
nonnegative integer frequency, and the frequency is at least 1 unless the
`(\d+) times daily` pattern captured the digit 0 on the normalized text, in which
case it is 0. -/
theorem c8_frequency (s : String) (i : DosageInstruction)
    (h : i ∈ (parseSIG s).dosageInstructions) :
    1 ≤ i.frequency ∨ (i.frequency = 0 ∧ findTimesDaily (normalizeL s.data) = some 0) := by
  rw [instr_frequency s i h]
  exact extractFrequency_pos_or (normalizeL s.data)

theorem c8_frequency_witness :
    c8Instr ∈ (parseSIG "Take 1 tablet 0 times daily").dosageInstructions ∧
    (1 ≤ c8Instr.frequency ∨
      (c8Instr.frequency = 0 ∧
       findTimesDaily (normalizeL ("Take 1 tablet 0 times daily").data) = some 0)) :=
  ⟨by decide, c8_frequency "Take 1 tablet 0 times daily" c8Instr (by decide)⟩

/-- Claim C10: for `"Take five tablets daily"` (spelled-out number, no digits),
`parseSIG` takes the fallback path and returns exactly one instruction with
`amount = 5`, `unit = "tablet"`, `frequency = 1`, and `route = "IV"` — the route is
IV because route detection is an unanchored substring match and `"iv"` occurs
inside the word `"five"`. -/
theorem c10_written_number_route :
    (parseSIG "Take five tablets daily").dosageInstructions =
      [{ amount := 5, unit := "tablet", frequency := 1, timing := none, route := some "IV" }] := by
  decide

/-- Claim C1, as stated, is false: on the catalog of active sizes 100/30/500,
`optimizeNDCSelection 60` does not select the 100-pack with one package, and
`optimizeNDCSelection 45` does not yield waste 55 with one package. -/
theorem c1_claim_false :
    ¬ (((optimizeNDCSelection 60 catalogC1).optimalCombination.map NDCCandidate.packageSize = [100] ∧
        (optimizeNDCSelection 60 catalogC1).optimalCombination.map NDCCandidate.packagesRequired = [1]) ∧
       ((optimizeNDCSelection 45 catalogC1).optimalCombination.map NDCCandidate.packageSize = [100] ∧
        (optimizeNDCSelection 45 catalogC1).waste = 55 ∧
        (optimizeNDCSelection 45 catalogC1).totalPackages = 1)) := by
  decide

/-- Claim C1 amended: on the catalog of active sizes 100/30/500, the least-waste
policy of the code selects the 30-pack: `optimizeNDCSelection 60` picks size 30 with
2 packages and waste 0, and `optimizeNDCSelection 45` picks size 30 with waste 15
and `totalPackages = 2`. -/
theorem c1_optimal_selection :
    (optimizeNDCSelection 60 catalogC1).optimalCombination.map NDCCandidate.packageSize = [30] ∧
    (optimizeNDCSelection 60 catalogC1).optimalCombination.map NDCCandidate.packagesRequired = [2] ∧
    (optimizeNDCSelection 60 catalogC1).waste = 0 ∧
    (optimizeNDCSelection 45 catalogC1).optimalCombination.map NDCCandidate.packageSize = [30] ∧
    (optimizeNDCSelection 45 catalogC1).waste = 15 ∧
    (optimizeNDCSelection 45 catalogC1).totalPackages = 2 := by
  decide

theorem optimize_error_cases (q : ℚ) (hq : 0 < q) (ndcs : List NDCPackageInfo) :
    (optimizeNDCSelection q ndcs).error = none ∨
    (optimizeNDCSelection q ndcs).error = some "No NDC data available for optimization" ∨
    (optimizeNDCSelection q ndcs).error = some "No valid active NDCs available for optimization" := by
  unfold optimizeNDCSelection
  rw [if_neg (not_le.mpr hq)]
  split
  · right; left; rfl
  · split
    · right; right; rfl
    · left; rfl

/-- Claim C7, as stated, is false: `optimizeNDCSelection` cannot produce three
pairwise-distinct catalog-failure error messages (errors produced while the
quantity is valid, i.e. positive), because only two such messages exist in the code. -/
theorem c7_claim_false :
    ¬ ∃ (q1 q2 q3 : ℚ) (c1 c2 c3 : List NDCPackageInfo) (e1 e2 e3 : String),
        0 < q1 ∧ 0 < q2 ∧ 0 < q3 ∧
        (optimizeNDCSelection q1 c1).error = some e1 ∧
        (optimizeNDCSelection q2 c2).error = some e2 ∧
        (optimizeNDCSelection q3 c3).error = some e3 ∧
        e1 ≠ e2 ∧ e1 ≠ e3 ∧ e2 ≠ e3 := by
  rintro ⟨q1, q2, q3, c1, c2, c3, e1, e2, e3, hq1, hq2, hq3, h1, h2, h3, n12, n13, n23⟩
  have f : ∀ (q : ℚ) (c : List NDCPackageInfo) (e : String), 0 < q →
      (optimizeNDCSelection q c).error = some e →
      e = "No NDC data available for optimization" ∨
      e = "No valid active NDCs available for optimization" := by
    intro q c e hq he
    rcases optimize_error_cases q hq c with h | h | h
    · rw [he] at h; cases h
    · rw [he] at h; exact Or.inl (Option.some.inj h)
    · rw [he] at h; exact Or.inr (Option.some.inj h)
  rcases f q1 c1 e1 hq1 h1 with rfl | rfl <;>
    rcases f q2 c2 e2 hq2 h2 with rfl | rfl <;>
      rcases f q3 c3 e3 hq3 h3 with rfl | rfl <;> simp_all

/-- Claim C7 amended: `optimizeNDCSelection` distinguishes exactly two distinct
catalog-failure error kinds — `"No NDC data available for optimization"` when
nothing is supplied and `"No valid active NDCs available for optimization"` when no
entry passes the active/valid filter — and for every positive quantity the error is
one of these two or absent. -/
theorem c7_error_kinds :
    (optimizeNDCSelection 60 []).error = some "No NDC data available for optimization" ∧
    (optimizeNDCSelection 60 [inactivePkg]).error =
      some "No valid active NDCs available for optimization" ∧
    ("No NDC data available for optimization" : String) ≠
      "No valid active NDCs available for optimization" ∧
    ∀ (q : ℚ) (c : List NDCPackageInfo), 0 < q →
      ((optimizeNDCSelection q c).error = none ∨
       (optimizeNDCSelection q c).error = some "No NDC data available for optimization" ∨
       (optimizeNDCSelection q c).error = some "No valid active NDCs available for optimization") :=
  ⟨by decide, by decide, by decide, fun q c hq => optimize_error_cases q hq c⟩

theorem c7_error_kinds_witness :
    (0 : ℚ) < 60 ∧
    ((optimizeNDCSelection 60 ([] : List NDCPackageInfo)).error = none ∨
     (optimizeNDCSelection 60 ([] : List NDCPackageInfo)).error =
       some "No NDC data available for optimization" ∨
     (optimizeNDCSelection 60 ([] : List NDCPackageInfo)).error =
       some "No valid active NDCs available for optimization") :=
  ⟨by norm_num, c7_error_kinds.2.2.2 60 [] (by norm_num)⟩

theorem mem_sortedCandidates_iff (q : ℚ) (ndcs : List NDCPackageInfo) (c : NDCCandidate) :
    c ∈ sortedCandidates q ndcs ↔ c ∈ (ndcs.filter ndcFilter).map (mkCandidate q) :=
  (List.perm_insertionSort _ _).mem_iff

theorem sortedCandidates_props (q : ℚ) (ndcs : List NDCPackageInfo) (c : NDCCandidate)
    (h : c ∈ sortedCandidates q ndcs) :
    c.status = "active" ∧ 0 < c.packageSize ∧ c.ndc ≠ "" := by
  rw [mem_sortedCandidates_iff] at h
  obtain ⟨n, hn, rfl⟩ := List.mem_map.mp h
  obtain ⟨-, hf⟩ := List.mem_filter.mp hn
  unfold ndcFilter at hf
  simp only [decide_eq_true_eq] at hf
  exact ⟨hf.1, hf.2.1, hf.2.2⟩

theorem bestFold_spec (q : ℚ) :
    ∀ (l : List NDCCandidate) (x : NDCCandidate),
      ((l.foldl (bestCand q) (x, calculateEfficiency q x.packageSize)).1 = x ∨
       (l.foldl (bestCand q) (x, calculateEfficiency q x.packageSize)).1 ∈ l) ∧
      (l.foldl (bestCand q) (x, calculateEfficiency q x.packageSize)).2 =
        calculateEfficiency q
          (l.foldl (bestCand q) (x, calculateEfficiency q x.packageSize)).1.packageSize ∧
      (l.foldl (bestCand q) (x, calculateEfficiency q x.packageSize)).2 ≤
        calculateEfficiency q x.packageSize ∧
      ∀ c ∈ l, (l.foldl (bestCand q) (x, calculateEfficiency q x.packageSize)).2 ≤
        calculateEfficiency q c.packageSize := by
  intro l
  induction l with
  | nil => intro x; exact ⟨Or.inl rfl, rfl, le_rfl, by simp⟩
  | cons c t ih =>
    intro x
    rw [List.foldl_cons]
    show _ ∧ _ ∧ _ ∧ _
    by_cases hlt : calculateEfficiency q c.packageSize < calculateEfficiency q x.packageSize
    · rw [show bestCand q (x, calculateEfficiency q x.packageSize) c =
        (c, calculateEfficiency q c.packageSize) from by unfold bestCand; simp [hlt]]
      obtain ⟨hmem, heq, hle, hall⟩ := ih c
      refine ⟨?_, heq, le_trans hle (le_of_lt hlt), ?_⟩
      · rcases hmem with h | h
        · exact Or.inr (by rw [h]; exact List.mem_cons_self c t)
        · exact Or.inr (List.mem_cons_of_mem c h)
      · intro d hd
        rcases List.mem_cons.mp hd with rfl | hd2
        · exact hle
        · exact hall d hd2
    · rw [show bestCand q (x, calculateEfficiency q x.packageSize) c =
        (x, calculateEfficiency q x.packageSize) from by unfold bestCand; simp [hlt]]
      obtain ⟨hmem, heq, hle, hall⟩ := ih x
      refine ⟨?_, heq, hle, ?_⟩
      · rcases hmem with h | h
        · exact Or.inl h
        · exact Or.inr (List.mem_cons_of_mem c h)
      · intro d hd
        rcases List.mem_cons.mp hd with rfl | hd2
        · exact le_trans hle (le_of_not_lt hlt)
        · exact hall d hd2

theorem findOptimal_spec (q : ℚ) (c0 : NDCCandidate) (rest : List NDCCandidate) :
    ∃ sel b0, findOptimalCombination q (c0 :: rest) = [sel] ∧ b0 ∈ c0 :: rest ∧
      sel.status = b0.status ∧ sel.packageSize = b0.packageSize ∧ sel.ndc = b0.ndc ∧
      sel.efficiency = calculateEfficiency q b0.packageSize ∧
      sel.packagesRequired = ceilQ (q / b0.packageSize) ∧
      ∀ c ∈ c0 :: rest, sel.efficiency ≤ calculateEfficiency q c.packageSize := by
  obtain ⟨hmem, heq, hle, hall⟩ := bestFold_spec q (c0 :: rest) c0
  set b := (c0 :: rest).foldl (bestCand q) (c0, calculateEfficiency q c0.packageSize) with hb
  refine ⟨{ b.1 with packagesRequired := ceilQ (q / b.1.packageSize), efficiency := b.2 },
    b.1, rfl, ?_, rfl, rfl, rfl, heq, rfl, ?_⟩
  · rcases hmem with h | h
    · rw [h]; exact List.mem_cons_self c0 rest
    · exact h
  · intro c hc
    exact hall c hc

theorem mem_findOptimal (q : ℚ) (cands : List NDCCandidate) (c : NDCCandidate)
    (h : c ∈ findOptimalCombination q cands) :
    ∃ b0 ∈ cands, c.status = b0.status ∧ c.packageSize = b0.packageSize ∧ c.ndc = b0.ndc := by
  cases cands with
  | nil => simp [findOptimalCombination] at h
  | cons c0 rest =>
    obtain ⟨sel, b0, heq, hb0, h1, h2, h3, -, -, -⟩ := findOptimal_spec q c0 rest
    rw [heq] at h
    simp at h
    subst h
    exact ⟨b0, hb0, h1, h2, h3⟩

theorem optimize_success_eq (q : ℚ) (ndcs : List NDCPackageInfo) (hq : 0 < q)
    (hne : (ndcs.filter ndcFilter).isEmpty = false) :
    optimizeNDCSelection q ndcs =
      { success := true, candidates := sortedCandidates q ndcs,
        optimalCombination := findOptimalCombination q (sortedCandidates q ndcs),
        totalQuantity := q,
        totalPackages := (findOptimalCombination q (sortedCandidates q ndcs)).foldl
          (fun s c => s + c.packagesRequired) 0,
        waste := max 0 ((findOptimalCombination q (sortedCandidates q ndcs)).foldl
          (fun s c => s + (c.packagesRequired : ℚ) * c.packageSize) 0 - q),
        error := none } := by
  have hne2 : ndcs.isEmpty = false := by
    cases ndcs with
    | nil => simp at hne
    | cons a t => rfl
  unfold optimizeNDCSelection
  rw [if_neg (not_le.mpr hq), if_neg (by simp [hne2]), if_neg (by simp [hne])]

theorem calculateEfficiency_nonneg {q s : ℚ} (hq : 0 < q) (hs : 0 < s) :
    0 ≤ calculateEfficiency q s := by
  unfold calculateEfficiency
  dsimp only
  rw [ceilQ_eq]
  have h1 : q / s ≤ (⌈q / s⌉ : ℚ) := Int.le_ceil _
  have h2 : q ≤ (⌈q / s⌉ : ℚ) * s := by rwa [div_le_iff₀ hs] at h1
  exact div_nonneg (by linarith) (le_of_lt hq)

theorem calculateEfficiency_self {q : ℚ} (hq : 0 < q) : calculateEfficiency q q = 0 := by
  unfold calculateEfficiency
  dsimp only
  rw [div_self (ne_of_gt hq), ceilQ_eq, Int.ceil_one]
  simp

theorem calculateEfficiency_zero_waste {q s : ℚ} (hq : 0 < q)
    (h : calculateEfficiency q s = 0) : (ceilQ (q / s) : ℚ) * s = q := by
  unfold calculateEfficiency at h
  dsimp only at h
  rcases div_eq_zero_iff.mp h with h0 | h0
  · linarith [sub_eq_zero.mp h0]
  · exact absurd h0 (ne_of_gt hq)

/-- Claim C5: for every quantity and catalog, no package whose status differs from
`"active"`, or whose size is non-positive, or which lacks a package code, ever
appears in the `candidates` list or in `optimalCombination` of the result of
`optimizeNDCSelection` — such entries are dropped entirely.  (Sizes are modelled as
rationals, so every representable size is finite.) -/
theorem c5_filtering (q : ℚ) (ndcs : List NDCPackageInfo) (c : NDCCandidate)
    (h : c ∈ (optimizeNDCSelection q ndcs).candidates ∨
         c ∈ (optimizeNDCSelection q ndcs).optimalCombination) :
    c.status = "active" ∧ 0 < c.packageSize ∧ c.ndc ≠ "" := by
  by_cases hq : q ≤ 0
  · unfold optimizeNDCSelection at h
    rw [if_pos hq] at h
    simp at h
  · by_cases hne : (ndcs.filter ndcFilter).isEmpty
    · unfold optimizeNDCSelection at h
      rw [if_neg hq] at h
      rcases h with h | h <;> split at h <;> simp_all
    · rw [optimize_success_eq q ndcs (lt_of_not_le hq) (by simpa using hne)] at h
      dsimp only at h
      rcases h with h | h
      · exact sortedCandidates_props q ndcs c h
      · obtain ⟨b0, hb0, h1, h2, h3⟩ := mem_findOptimal q _ c h
        obtain ⟨p1, p2, p3⟩ := sortedCandidates_props q ndcs b0 hb0
        exact ⟨by rw [h1]; exact p1, by rw [h2]; exact p2, by rw [h3]; exact p3⟩

theorem c5_filtering_witness :
    (mkCandidate 60 (mkPkg "12345-101-02" 30 "active") ∈
       (optimizeNDCSelection 60 catalogC1).candidates ∨
     mkCandidate 60 (mkPkg "12345-101-02" 30 "active") ∈
       (optimizeNDCSelection 60 catalogC1).optimalCombination) ∧
    (mkCandidate 60 (mkPkg "12345-101-02" 30 "active")).status = "active" ∧
    0 < (mkCandidate 60 (mkPkg "12345-101-02" 30 "active")).packageSize ∧
    (mkCandidate 60 (mkPkg "12345-101-02" 30 "active")).ndc ≠ "" :=
  ⟨Or.inl (by decide), c5_filtering 60 catalogC1 _ (Or.inl (by decide))⟩

/-- Claim C4: for every positive quantity and every catalog containing an active,
valid package whose size equals the quantity needed, `optimizeNDCSelection` succeeds
and the selected package in `optimalCombination` has `efficiency = 0` and the
result's `waste = 0`. -/
theorem c4_exact_fit (q : ℚ) (ndcs : List NDCPackageInfo) (e : NDCPackageInfo)
    (hq : 0 < q) (he : e ∈ ndcs) (hst : e.status = "active") (hsz : e.size = q)
    (hcode : e.package_ndc ≠ "") :
    (optimizeNDCSelection q ndcs).success = true ∧
    (∃ sel, (optimizeNDCSelection q ndcs).optimalCombination = [sel] ∧
      sel.efficiency = 0) ∧
    (optimizeNDCSelection q ndcs).waste = 0 := by
  have hfe : ndcFilter e = true := by
    unfold ndcFilter
    simp only [decide_eq_true_eq]
    exact ⟨hst, by rw [hsz]; exact hq, hcode⟩
  have hmem : mkCandidate q e ∈ (ndcs.filter ndcFilter).map (mkCandidate q) :=
    List.mem_map_of_mem _ (List.mem_filter.mpr ⟨he, hfe⟩)
  have hmemS : mkCandidate q e ∈ sortedCandidates q ndcs :=
    (mem_sortedCandidates_iff q ndcs _).mpr hmem
  have hne : (ndcs.filter ndcFilter).isEmpty = false := by
    cases hl : ndcs.filter ndcFilter with
    | nil =>
      rw [hl] at hmem
      simp at hmem
    | cons a t => rfl
  rw [optimize_success_eq q ndcs hq hne]
  obtain ⟨c0, rest, hcr⟩ := List.exists_cons_of_ne_nil (List.ne_nil_of_mem hmemS)
  obtain ⟨sel, b0, heq, hb0, -, hsz2, -, heff, hpr, hmin⟩ := findOptimal_spec q c0 rest
  rw [← hcr] at heq hb0 hmin
  have hb0props := sortedCandidates_props q ndcs b0 hb0
  have heff0 : sel.efficiency = 0 := by
    have hlow : sel.efficiency ≤ calculateEfficiency q (mkCandidate q e).packageSize :=
      hmin _ hmemS
    have : (mkCandidate q e).packageSize = q := hsz
    rw [this, calculateEfficiency_self hq] at hlow
    have hge : 0 ≤ sel.efficiency := by
      rw [heff]
      exact calculateEfficiency_nonneg hq hb0props.2.1
    linarith
  refine ⟨rfl, ⟨sel, by rw [heq], heff0⟩, ?_⟩
  dsimp only
  rw [heq]
  have hzw : (ceilQ (q / b0.packageSize) : ℚ) * b0.packageSize = q := by
    apply calculateEfficiency_zero_waste hq
    rw [← heff]
    exact heff0
  rw [List.foldl_cons, List.foldl_nil]
  rw [hpr, hsz2, hzw]
  simp

theorem c4_exact_fit_witness :
    (0 : ℚ) < 60 ∧ exactPkg60 ∈ [exactPkg60] ∧ exactPkg60.status = "active" ∧
    exactPkg60.size = 60 ∧ exactPkg60.package_ndc ≠ "" ∧
    ((optimizeNDCSelection 60 [exactPkg60]).success = true ∧
     (∃ sel, (optimizeNDCSelection 60 [exactPkg60]).optimalCombination = [sel] ∧
       sel.efficiency = 0) ∧
     (optimizeNDCSelection 60 [exactPkg60]).waste = 0) :=
  ⟨by norm_num, by decide, by decide, by decide, by decide,
   c4_exact_fit 60 [exactPkg60] exactPkg60 (by norm_num) (by decide) (by decide)
     (by decide) (by decide)⟩

theorem mdF_acc : ∀ (f n : ℕ) (acc : List Char), mdF f n acc = mdF f n [] ++ acc := by
  intro f
  induction f with
  | zero => intro n acc; rfl
  | succ f ih =>
    intro n acc
    by_cases hn : n = 0
    · simp [mdF, hn]
    · rw [mdF, mdF, if_neg hn, if_neg hn, ih (n / 10) (digChar (n % 10) :: acc),
        ih (n / 10) [digChar (n % 10)]]
      simp

theorem mdF_fuel : ∀ (n f g : ℕ), n ≤ f → n ≤ g → ∀ acc, mdF f n acc = mdF g n acc := by
  intro n
  induction n using Nat.strong_induction_on with
  | _ n ih =>
    intro f g hf hg acc
    by_cases hn : n = 0
    · subst hn
      cases f <;> cases g <;> simp [mdF]
    · obtain ⟨f1, rfl⟩ : ∃ f1, f = f1 + 1 := ⟨f - 1, by omega⟩
      obtain ⟨g1, rfl⟩ : ∃ g1, g = g1 + 1 := ⟨g - 1, by omega⟩
      rw [mdF, mdF, if_neg hn, if_neg hn]
      have hlt : n / 10 < n := Nat.div_lt_self (Nat.pos_of_ne_zero hn) (by norm_num)
      exact ih (n / 10) hlt f1 g1 (by omega) (by omega) _

theorem myDigits_step {n : ℕ} (hn : n ≠ 0) :
    myDigits n = myDigits (n / 10) ++ [digChar (n % 10)] := by
  unfold myDigits
  rw [mdF, if_neg hn, mdF_acc]
  congr 1
  have hlt : n / 10 < n := Nat.div_lt_self (Nat.pos_of_ne_zero hn) (by norm_num)
  exact mdF_fuel (n / 10) n (n / 10 + 1) (by omega) (by omega) []

theorem digChar_isDigit {k : ℕ} (hk : k < 10) : (digChar k).isDigit = true := by
  interval_cases k <;> decide

theorem digitVal_digChar {k : ℕ} (hk : k < 10) : digitVal (digChar k) = k := by
  interval_cases k <;> decide

theorem myDigits_digits (n : ℕ) : ∀ c ∈ myDigits n, c.isDigit = true := by
  induction n using Nat.strong_induction_on with
  | _ n ih =>
    by_cases hn : n = 0
    · subst hn; intro c hc; simp [myDigits, mdF] at hc
    · rw [myDigits_step hn]
      intro c hc
      rcases List.mem_append.mp hc with h | h
      · exact ih (n / 10) (Nat.div_lt_self (Nat.pos_of_ne_zero hn) (by norm_num)) c h
      · rw [List.mem_singleton.mp h]
        exact digChar_isDigit (Nat.mod_lt n (by norm_num))

theorem myDigits_ne_nil {n : ℕ} (hn : 0 < n) : myDigits n ≠ [] := by
  rw [myDigits_step (Nat.pos_iff_ne_zero.mp hn)]
  simp

theorem natOfDigits_append_one (l : List Char) (c : Char) :
    natOfDigits (l ++ [c]) = 10 * natOfDigits l + digitVal c := by
  unfold natOfDigits
  rw [List.foldl_append]
  rfl

theorem natOfDigits_myDigits (n : ℕ) : natOfDigits (myDigits n) = n := by
  induction n using Nat.strong_induction_on with
  | _ n ih =>
    by_cases hn : n = 0
    · subst hn; rfl
    · rw [myDigits_step hn, natOfDigits_append_one,
        ih (n / 10) (Nat.div_lt_self (Nat.pos_of_ne_zero hn) (by norm_num)),
        digitVal_digChar (Nat.mod_lt n (by norm_num))]
      omega

theorem digit_not_ws {c : Char} (h : c.isDigit = true) : isWsJS c = false := by
  unfold isWsJS
  by_contra hc
  simp only [Bool.not_eq_false, Bool.or_eq_true, decide_eq_true_eq] at hc
  rcases hc with ((((h1 | h1) | h1) | h1) | h1) | h1 <;> subst h1 <;> simp at h

theorem digit_toLower {c : Char} (h : c.isDigit = true) : c.toLower = c := by
  unfold Char.toLower
  rw [if_neg]
  simp only [Char.isDigit, Bool.and_eq_true, decide_eq_true_eq] at h
  obtain ⟨h1, h2⟩ := h
  have hv1 : 48 ≤ c.toNat := h1
  have hv2 : c.toNat ≤ 57 := h2
  simp only [Bool.and_eq_true, decide_eq_true_eq, not_and]
  omega

theorem map_toLower_digits {d : List Char} (hd : ∀ c ∈ d, c.isDigit = true) :
    d.map Char.toLower = d := by
  induction d with
  | nil => rfl
  | cons c t ih =>
    rw [List.map_cons, digit_toLower (hd c (List.mem_cons_self c t)),
      ih fun x hx => hd x (List.mem_cons_of_mem c hx)]

theorem takeWhile_digits_append {d : List Char} (hd : ∀ c ∈ d, c.isDigit = true)
    {x : Char} (hx : x.isDigit = false) (r : List Char) :
    (d ++ x :: r).takeWhile Char.isDigit = d ∧
    (d ++ x :: r).dropWhile Char.isDigit = x :: r := by
  induction d with
  | nil =>
    constructor
    · rw [List.nil_append, List.takeWhile_cons_of_neg (by simp [hx])]
    · rw [List.nil_append, List.dropWhile_cons_of_neg (by simp [hx])]
  | cons c t ih =>
    obtain ⟨ih1, ih2⟩ := ih fun a ha => hd a (List.mem_cons_of_mem c ha)
    constructor
    · rw [List.cons_append, List.takeWhile_cons_of_pos (hd c (List.mem_cons_self c t)), ih1]
    · rw [List.cons_append, List.dropWhile_cons_of_pos (hd c (List.mem_cons_self c t)), ih2]

theorem normalizeL_of_shape (l m : List Char) (c y : Char)
    (hmap : l.map Char.toLower = m)
    (hcons : ∃ t, m = c :: t) (hc : isWsJS c = false)
    (hrev : ∃ t, m.reverse = y :: t) (hy : isWsJS y = false) :
    normalizeL l = m := by
  unfold normalizeL
  rw [hmap]
  obtain ⟨t, rfl⟩ := hcons
  rw [List.dropWhile_cons_of_neg (by simp [hc])]
  obtain ⟨t2, hrev2⟩ := hrev
  rw [hrev2, List.dropWhile_cons_of_neg (by simp [hy]), ← hrev2, List.reverse_reverse]

theorem afterPfx_isSome_stop (pat : List Char) (hpat : ∀ c ∈ pat, c.isDigit = false) :
    ∀ (a : List Char) {e : Char}, e.isDigit = true → ∀ (z : List Char),
      (afterPfx pat (a ++ e :: z)).isSome = (afterPfx pat a).isSome := by
  induction pat with
  | nil => intro a e he z; rfl
  | cons p ps ih =>
    intro a e he z
    cases a with
    | nil =>
      rw [List.nil_append]
      have hne : p ≠ e := by
        intro h
        rw [h] at hpat
        exact absurd he (by simpa using hpat e (List.mem_cons_self e ps))
      simp [afterPfx, hne]
    | cons b bs =>
      rw [List.cons_append, afterPfx, afterPfx]
      by_cases hpb : p = b
      · rw [if_pos hpb, if_pos hpb]
        exact ih (fun x hx => hpat x (List.mem_cons_of_mem p hx)) bs he z
      · rw [if_neg hpb, if_neg hpb]

theorem hasSub_digit_block_nil (pat : List Char) (hp : pat ≠ [])
    (hpat : ∀ c ∈ pat, c.isDigit = false) (b : List Char) :
    ∀ (d : List Char), (∀ c ∈ d, c.isDigit = true) → hasSub pat (d ++ b) = hasSub pat b := by
  intro d
  induction d with
  | nil => intro _; rfl
  | cons e d2 ih =>
    intro hd
    rw [List.cons_append, hasSub]
    have h1 : (afterPfx pat (e :: (d2 ++ b))).isSome = false := by
      have := afterPfx_isSome_stop pat hpat [] (hd e (List.mem_cons_self e d2)) (d2 ++ b)
      rw [List.nil_append] at this
      rw [this]
      obtain ⟨p, ps, rfl⟩ := List.exists_cons_of_ne_nil hp
      rfl
    rw [h1, Bool.false_or]
    exact ih fun x hx => hd x (List.mem_cons_of_mem e hx)

theorem hasSub_append_digits (pat : List Char) (hp : pat ≠ [])
    (hpat : ∀ c ∈ pat, c.isDigit = false)
    (d b : List Char) (hdn : d ≠ []) (hdd : ∀ c ∈ d, c.isDigit = true) :
    ∀ (a : List Char), hasSub pat (a ++ d ++ b) = (hasSub pat a || hasSub pat b) := by
  intro a
  induction a with
  | nil =>
    rw [List.nil_append]
    have hnil : hasSub pat ([] : List Char) = false := by
      obtain ⟨p, ps, rfl⟩ := List.exists_cons_of_ne_nil hp
      rfl
    rw [hnil, Bool.false_or]
    exact hasSub_digit_block_nil pat hp hpat b d hdd
  | cons x a2 ih =>
    rw [List.cons_append, List.cons_append, hasSub]
    obtain ⟨e, d2, rfl⟩ := List.exists_cons_of_ne_nil hdn
    have hstop : (afterPfx pat ((x :: a2) ++ e :: (d2 ++ b))).isSome =
        (afterPfx pat (x :: a2)).isSome := by
      exact afterPfx_isSome_stop pat hpat (x :: a2) (hdd e (List.mem_cons_self e d2)) (d2 ++ b)
    have hshape : x :: (a2 ++ (e :: d2) ++ b) = (x :: a2) ++ e :: (d2 ++ b) := by simp
    rw [show a2 ++ (e :: d2) ++ b = a2 ++ e :: (d2 ++ b) by simp] at ih ⊢
    rw [show afterPfx pat (x :: (a2 ++ e :: (d2 ++ b))) =
        afterPfx pat ((x :: a2) ++ e :: (d2 ++ b)) from by rw [List.cons_append]]
    rw [hstop, ih, hasSub]
    rw [Bool.or_assoc]

theorem hasAny_concat (pats : List String)
    (hpats : ∀ p ∈ pats, p.data ≠ [] ∧ ∀ c ∈ p.data, c.isDigit = false)
    (a d B : List Char) (hdn : d ≠ []) (hdd : ∀ c ∈ d, c.isDigit = true) :
    hasAny (a ++ d ++ B) pats = (hasAny a pats || hasAny B pats) := by
  unfold hasAny
  induction pats with
  | nil => rfl
  | cons p ps ih =>
    rw [List.any_cons, List.any_cons, List.any_cons]
    rw [hasSub_append_digits p.data (hpats p (List.mem_cons_self p ps)).1
      (hpats p (List.mem_cons_self p ps)).2 d B hdn hdd a]
    rw [ih fun x hx => hpats x (List.mem_cons_of_mem p hx)]
    cases hasSub p.data a <;> cases hasSub p.data B <;>
      cases List.any ps fun p => hasSub p.data a <;>
        cases List.any ps fun p => hasSub p.data B <;> rfl

theorem hasAny_concat_val (pats : List String) (d B : List Char) (b : Bool)
    (hpats : ∀ p ∈ pats, p.data ≠ [] ∧ ∀ c ∈ p.data, c.isDigit = false)
    (hdn : d ≠ []) (hdd : ∀ c ∈ d, c.isDigit = true)
    (hval : (hasAny "take ".data pats || hasAny B pats) = b) :
    hasAny ("take ".data ++ d ++ B) pats = b := by
  rw [hasAny_concat pats hpats "take ".data d B hdn hdd]
  exact hval

theorem ws1_digits {d : List Char} (hdn : d ≠ []) (hdd : ∀ c ∈ d, c.isDigit = true)
    (B : List Char) : ws1 (' ' :: (d ++ B)) = some (d ++ B) := by
  obtain ⟨c, d2, rfl⟩ := List.exists_cons_of_ne_nil hdn
  unfold ws1
  dsimp only
  rw [if_pos (by decide)]
  rw [List.cons_append,
    List.dropWhile_cons_of_neg (by simp [digit_not_ws (hdd c (List.mem_cons_self c d2))])]

theorem numTok_digits {d : List Char} (hdn : d ≠ []) (hdd : ∀ c ∈ d, c.isDigit = true)
    (B : List Char) : numTok (d ++ ' ' :: B) = some ((natOfDigits d : ℚ), ' ' :: B) := by
  obtain ⟨htake, hdrop⟩ := takeWhile_digits_append hdd (x := ' ') (by decide) B
  unfold numTok
  dsimp only
  rw [htake, hdrop, if_neg (by simpa using hdn)]
  rfl

theorem pat1At_shape {d : List Char} (hdn : d ≠ []) (hdd : ∀ c ∈ d, c.isDigit = true)
    (r : List Char) :
    pat1At ("take ".data ++ d ++ (' ' :: 't' :: 'a' :: 'b' :: 'l' :: 'e' :: 't' :: r)) =
      some ((natOfDigits d : ℚ), "tablet".data, r) := by
  unfold pat1At
  rw [show afterPfx "take".data
      ("take ".data ++ d ++ (' ' :: 't' :: 'a' :: 'b' :: 'l' :: 'e' :: 't' :: r)) =
      some (' ' :: (d ++ (' ' :: 't' :: 'a' :: 'b' :: 'l' :: 'e' :: 't' :: r))) from rfl]
  dsimp only
  rw [ws1_digits hdn hdd _]
  dsimp only
  rw [show d ++ (' ' :: 't' :: 'a' :: 'b' :: 'l' :: 'e' :: 't' :: r) =
      d ++ ' ' :: ('t' :: 'a' :: 'b' :: 'l' :: 'e' :: 't' :: r) from rfl]
  rw [numTok_digits hdn hdd _]
  dsimp only
  rw [show ws1 (' ' :: 't' :: 'a' :: 'b' :: 'l' :: 'e' :: 't' :: r) =
      some ('t' :: 'a' :: 'b' :: 'l' :: 'e' :: 't' :: r) from by
    unfold ws1
    dsimp only
    rw [if_pos (by decide), List.dropWhile_cons_of_neg (by decide)]]
  dsimp only
  rw [show firstPfxOf unitAlts ('t' :: 'a' :: 'b' :: 'l' :: 'e' :: 't' :: r) =
      some ("tablet".data, r) from rfl]

theorem afterPfx_length {p : List Char} :
    ∀ {l r : List Char}, afterPfx p l = some r → r.length + p.length = l.length := by
  induction p with
  | nil => intro l r h; simp [afterPfx] at h; simp [h]
  | cons a as ih =>
    intro l r h
    cases l with
    | nil => simp [afterPfx] at h
    | cons b bs =>
      unfold afterPfx at h
      split at h
      · have := ih h
        simp only [List.length_cons]
        omega
      · simp at h

theorem ws1_length {l r : List Char} (h : ws1 l = some r) : r.length < l.length := by
  cases l with
  | nil => simp [ws1] at h
  | cons c t =>
    unfold ws1 at h
    dsimp only at h
    split at h
    · simp only [Option.some.injEq] at h
      subst h
      have h2 := (List.dropWhile_sublist (l := t) isWsJS).length_le
      simp only [List.length_cons]
      omega
    · simp at h

theorem numTok_length {l : List Char} {q : ℚ} {r : List Char}
    (h : numTok l = some (q, r)) : r.length ≤ l.length := by
  unfold numTok at h
  dsimp only at h
  have hdrop := (List.dropWhile_sublist (l := l) Char.isDigit).length_le
  split at h
  · simp at h
  · split at h
    · rename_i r2 heq
      split at h
      · simp only [Option.some.injEq, Prod.mk.injEq] at h
        rw [← h.2]
        omega
      · simp only [Option.some.injEq, Prod.mk.injEq] at h
        rw [← h.2]
        have h2 := (List.dropWhile_sublist (l := r2) Char.isDigit).length_le
        rw [heq] at hdrop
        simp only [List.length_cons] at hdrop
        omega
    · simp only [Option.some.injEq, Prod.mk.injEq] at h
      rw [← h.2]
      omega

theorem firstPfxOf_length {alts : List (List Char)} (halts : ∀ a ∈ alts, a ≠ []) :
    ∀ {l u r : List Char}, firstPfxOf alts l = some (u, r) → r.length < l.length := by
  induction alts with
  | nil => intro l u r h; simp [firstPfxOf] at h
  | cons a as ih =>
    intro l u r h
    unfold firstPfxOf at h
    cases ha : afterPfx a l with
    | some r2 =>
      rw [ha] at h
      simp only [Option.some.injEq, Prod.mk.injEq] at h
      have hlen := afterPfx_length ha
      have hane : a ≠ [] := halts a (List.mem_cons_self a as)
      have : 0 < a.length := List.length_pos.mpr hane
      rw [← h.2]
      omega
    | none =>
      rw [ha] at h
      exact ih (fun x hx => halts x (List.mem_cons_of_mem a hx)) h

theorem pat1At_length {l : List Char} {q : ℚ} {u r : List Char}
    (h : pat1At l = some (q, u, r)) : r.length < l.length := by
  unfold pat1At at h
  cases h1 : afterPfx "take".data l with
  | none => rw [h1] at h; simp at h
  | some l1 =>
    rw [h1] at h
    dsimp only at h
    cases h2 : ws1 l1 with
    | none => rw [h2] at h; simp at h
    | some l2 =>
      rw [h2] at h
      dsimp only at h
      cases h3 : numTok l2 with
      | none => rw [h3] at h; simp at h
      | some v =>
        obtain ⟨q0, l3⟩ := v
        rw [h3] at h
        dsimp only at h
        cases h4 : ws1 l3 with
        | none => rw [h4] at h; simp at h
        | some l4 =>
          rw [h4] at h
          dsimp only at h
          cases h5 : firstPfxOf unitAlts l4 with
          | none => rw [h5] at h; simp at h
          | some w =>
            obtain ⟨u0, r0⟩ := w
            rw [h5] at h
            simp only [Option.some.injEq, Prod.mk.injEq] at h
            have e1 := afterPfx_length h1
            have e2 := ws1_length h2
            have e3 := numTok_length h3
            have e4 := ws1_length h4
            have e5 := firstPfxOf_length (by decide) h5
            obtain ⟨-, -, hr⟩ := h
            subst hr
            omega

theorem scanF_fuel {pAt : List Char → Option (ℚ × List Char × List Char)}
    (hlen : ∀ {l q u r}, pAt l = some (q, u, r) → r.length < l.length) :
    ∀ (f : ℕ) (l : List Char), l.length ≤ f → ∀ (g : ℕ), l.length ≤ g →
      scanF pAt f l = scanF pAt g l := by
  intro f
  induction f with
  | zero =>
    intro l hl g hg
    have : l = [] := List.length_eq_zero.mp (Nat.le_zero.mp hl)
    subst this
    cases g <;> rfl
  | succ f ih =>
    intro l hl g hg
    cases l with
    | nil => cases g <;> rfl
    | cons c t =>
      obtain ⟨g1, rfl⟩ : ∃ g1, g = g1 + 1 := ⟨g - 1, by simp at hg; omega⟩
      rw [scanF, scanF]
      cases hp : pAt (c :: t) with
      | none =>
        dsimp only
        simp only [List.length_cons] at hl hg
        exact ih t (by omega) g1 (by omega)
      | some v =>
        obtain ⟨q, u, r⟩ := v
        dsimp only
        have hr := hlen hp
        simp only [List.length_cons] at hl hg hr
        rw [ih r (by omega) g1 (by omega)]

theorem matchAll_pat1_shape {d : List Char} (hdn : d ≠ []) (hdd : ∀ c ∈ d, c.isDigit = true)
    (r : List Char) (hr : matchAll pat1At r = []) :
    matchAll pat1At ("take ".data ++ d ++ (' ' :: 't' :: 'a' :: 'b' :: 'l' :: 'e' :: 't' :: r)) =
      [((natOfDigits d : ℚ), "tablet".data)] := by
  have hTlen : ("take ".data ++ d ++ (' ' :: 't' :: 'a' :: 'b' :: 'l' :: 'e' :: 't' :: r)).length =
      (d.length + r.length + 11) + 1 := by
    simp [List.length_append]
    omega
  unfold matchAll
  rw [hTlen]
  rw [show ("take ".data ++ d ++ (' ' :: 't' :: 'a' :: 'b' :: 'l' :: 'e' :: 't' :: r)) =
      't' :: ("ake ".data ++ d ++ (' ' :: 't' :: 'a' :: 'b' :: 'l' :: 'e' :: 't' :: r)) from rfl]
  rw [scanF]
  rw [show ('t' :: ("ake ".data ++ d ++ (' ' :: 't' :: 'a' :: 'b' :: 'l' :: 'e' :: 't' :: r))) =
      "take ".data ++ d ++ (' ' :: 't' :: 'a' :: 'b' :: 'l' :: 'e' :: 't' :: r) from rfl]
  rw [pat1At_shape hdn hdd r]
  dsimp only
  rw [scanF_fuel (fun h => pat1At_length h) (d.length + r.length + 11) r (by omega) r.length le_rfl]
  rw [show scanF pat1At r.length r = matchAll pat1At r from rfl, hr]

/-- Stem of claim C3: if the normalized SIG has the shape
`take <digits> tablet...` with a tail that the first dosage pattern does not match
again, no PRN phrase, and frequency `k`, then the dispense quantity is
`ceil(amount * k * days)`. -/
theorem c3_main (n days : ℕ) (k : ℕ) (hn : 0 < n) (S : String) (B r : List Char)
    (hBshape : B = ' ' :: 't' :: 'a' :: 'b' :: 'l' :: 'e' :: 't' :: r)
    (hSdata : S.data.map Char.toLower = "take ".data ++ myDigits n ++ B)
    (hscan_r : matchAll pat1At r = [])
    (hrev : ∃ t2, ("take ".data ++ myDigits n ++ B).reverse = 'y' :: t2)
    (hfreq : (extractFrequency ("take ".data ++ myDigits n ++ B)).timesPerDay = k)
    (hprn : hasAny ("take ".data ++ myDigits n ++ B) prnPhrases = false) :
    (calculateDispenseQuantity S days).totalQuantity = ⌈(n * k * days : ℚ)⌉ := by
  subst hBshape
  have hdd := myDigits_digits n
  have hdn := myDigits_ne_nil hn
  have hnorm : normalizeL S.data =
      "take ".data ++ myDigits n ++ (' ' :: 't' :: 'a' :: 'b' :: 'l' :: 'e' :: 't' :: r) :=
    normalizeL_of_shape _ _ 't' 'y' hSdata
      ⟨"ake ".data ++ myDigits n ++ (' ' :: 't' :: 'a' :: 'b' :: 'l' :: 'e' :: 't' :: r), rfl⟩
      (by decide) hrev (by decide)
  have hms : sigMatches
      ("take ".data ++ myDigits n ++ (' ' :: 't' :: 'a' :: 'b' :: 'l' :: 'e' :: 't' :: r)) =
      [((natOfDigits (myDigits n) : ℚ), "tablet".data)] := by
    unfold sigMatches
    rw [matchAll_pat1_shape hdn hdd r hscan_r]
    rfl
  have hne : (sigMatches
      ("take ".data ++ myDigits n ++ (' ' :: 't' :: 'a' :: 'b' :: 'l' :: 'e' :: 't' :: r))).isEmpty
      = false := by
    rw [hms]
    rfl
  have hmain := parseSIGL_main _ hne
  have hinstr : (parseSIG S).dosageInstructions =
      [{ amount := (natOfDigits (myDigits n) : ℚ), unit := String.mk (stripS "tablet".data),
         frequency := (extractFrequency
           ("take ".data ++ myDigits n ++
             (' ' :: 't' :: 'a' :: 'b' :: 'l' :: 'e' :: 't' :: r))).timesPerDay,
         timing := (extractFrequency
           ("take ".data ++ myDigits n ++
             (' ' :: 't' :: 'a' :: 'b' :: 'l' :: 'e' :: 't' :: r))).timing,
         route := extractRoute
           ("take ".data ++ myDigits n ++
             (' ' :: 't' :: 'a' :: 'b' :: 'l' :: 'e' :: 't' :: r)) }] := by
    rw [parseSIG_instr, hnorm, hmain]
    dsimp only
    rw [hms]
    rfl
  have hdose : (parseSIG S).totalDailyDose = (natOfDigits (myDigits n) : ℚ) * k := by
    rw [parseSIG_dose, hnorm, hmain]
    dsimp only
    rw [hms, hfreq]
    simp
  have hprnS : (parseSIG S).prn = false := by
    rw [parseSIG_prn, hnorm]
    exact hprn
  rw [calculateDispenseQuantity_cons S days _ [] hinstr]
  dsimp only
  rw [hprnS, if_neg (by simp), hdose, natOfDigits_myDigits, ceilQ_eq]

/-- Claim C3: for every positive integer amount, every frequency phrase among
`once daily` (1), `twice daily` (2), `three times daily` (3), `four times daily` (4),
and every positive integer days, when the text contains no PRN phrase,
`calculateDispenseQuantity("Take {amount} tablet(s) {freqPhrase}", days)` returns
`totalQuantity = ceil(amount * frequency * days)` (both plural and singular
`tablet(s)` forms). -/
theorem c3_quantity_formula (n days : ℕ) (pl : Bool) (fp : String) (k : ℕ)
    (hn : 0 < n) (_hd : 0 < days) (hfp : (fp, k) ∈ freqTable) :
    (calculateDispenseQuantity (mkSIG n pl fp) days).totalQuantity = ⌈(n * k * days : ℚ)⌉ := by
  have hdd := myDigits_digits n
  have hdn := myDigits_ne_nil hn
  simp only [freqTable, List.mem_cons, List.not_mem_nil, or_false, Prod.mk.injEq] at hfp
  rcases hfp with ⟨rfl, rfl⟩ | ⟨rfl, rfl⟩ | ⟨rfl, rfl⟩ | ⟨rfl, rfl⟩ <;> cases pl
  · refine c3_main n days 1 hn _ (" tablet ".data ++ "once daily".data) (" once daily".data)
      rfl ?_ (by decide) ⟨_, by rw [List.reverse_append]; rfl⟩ ?_
      (hasAny_concat_val _ _ _ false (by decide) hdn hdd (by decide))
    · rw [show (mkSIG n false "once daily").data =
        "Take ".data ++ myDigits n ++ (" tablet ".data ++ "once daily".data) from rfl,
        List.map_append, List.map_append, map_toLower_digits hdd]
      rfl
    · unfold extractFrequency
      rw [hasAny_concat_val _ _ _ false (by decide) hdn hdd (by decide),
        hasAny_concat_val _ _ _ false (by decide) hdn hdd (by decide),
        hasAny_concat_val _ _ _ false (by decide) hdn hdd (by decide),
        hasAny_concat_val _ _ _ true (by decide) hdn hdd (by decide)]
      rfl
  · refine c3_main n days 1 hn _ (" tablets ".data ++ "once daily".data) ("s once daily".data)
      rfl ?_ (by decide) ⟨_, by rw [List.reverse_append]; rfl⟩ ?_
      (hasAny_concat_val _ _ _ false (by decide) hdn hdd (by decide))
    · rw [show (mkSIG n true "once daily").data =
        "Take ".data ++ myDigits n ++ (" tablets ".data ++ "once daily".data) from rfl,
        List.map_append, List.map_append, map_toLower_digits hdd]
      rfl
    · unfold extractFrequency
      rw [hasAny_concat_val _ _ _ false (by decide) hdn hdd (by decide),
        hasAny_concat_val _ _ _ false (by decide) hdn hdd (by decide),
        hasAny_concat_val _ _ _ false (by decide) hdn hdd (by decide),
        hasAny_concat_val _ _ _ true (by decide) hdn hdd (by decide)]
      rfl
  · refine c3_main n days 2 hn _ (" tablet ".data ++ "twice daily".data) (" twice daily".data)
      rfl ?_ (by decide) ⟨_, by rw [List.reverse_append]; rfl⟩ ?_
      (hasAny_concat_val _ _ _ false (by decide) hdn hdd (by decide))
    · rw [show (mkSIG n false "twice daily").data =
        "Take ".data ++ myDigits n ++ (" tablet ".data ++ "twice daily".data) from rfl,
        List.map_append, List.map_append, map_toLower_digits hdd]
      rfl
    · unfold extractFrequency
      rw [hasAny_concat_val _ _ _ false (by decide) hdn hdd (by decide),
        hasAny_concat_val _ _ _ false (by decide) hdn hdd (by decide),
        hasAny_concat_val _ _ _ true (by decide) hdn hdd (by decide)]
      rfl
  · refine c3_main n days 2 hn _ (" tablets ".data ++ "twice daily".data) ("s twice daily".data)
      rfl ?_ (by decide) ⟨_, by rw [List.reverse_append]; rfl⟩ ?_
      (hasAny_concat_val _ _ _ false (by decide) hdn hdd (by decide))
    · rw [show (mkSIG n true "twice daily").data =
        "Take ".data ++ myDigits n ++ (" tablets ".data ++ "twice daily".data) from rfl,
        List.map_append, List.map_append, map_toLower_digits hdd]
      rfl
    · unfold extractFrequency
      rw [hasAny_concat_val _ _ _ false (by decide) hdn hdd (by decide),
        hasAny_concat_val _ _ _ false (by decide) hdn hdd (by decide),
        hasAny_concat_val _ _ _ true (by decide) hdn hdd (by decide)]
      rfl
  · refine c3_main n days 3 hn _ (" tablet ".data ++ "three times daily".data)
      (" three times daily".data)
      rfl ?_ (by decide) ⟨_, by rw [List.reverse_append]; rfl⟩ ?_
      (hasAny_concat_val _ _ _ false (by decide) hdn hdd (by decide))
    · rw [show (mkSIG n false "three times daily").data =
        "Take ".data ++ myDigits n ++ (" tablet ".data ++ "three times daily".data) from rfl,
        List.map_append, List.map_append, map_toLower_digits hdd]
      rfl
    · unfold extractFrequency
      rw [hasAny_concat_val _ _ _ true (by decide) hdn hdd (by decide)]
      rfl
  · refine c3_main n days 3 hn _ (" tablets ".data ++ "three times daily".data)
      ("s three times daily".data)
      rfl ?_ (by decide) ⟨_, by rw [List.reverse_append]; rfl⟩ ?_
      (hasAny_concat_val _ _ _ false (by decide) hdn hdd (by decide))
    · rw [show (mkSIG n true "three times daily").data =
        "Take ".data ++ myDigits n ++ (" tablets ".data ++ "three times daily".data) from rfl,
        List.map_append, List.map_append, map_toLower_digits hdd]
      rfl
    · unfold extractFrequency
      rw [hasAny_concat_val _ _ _ true (by decide) hdn hdd (by decide)]
      rfl
  · refine c3_main n days 4 hn _ (" tablet ".data ++ "four times daily".data)
      (" four times daily".data)
      rfl ?_ (by decide) ⟨_, by rw [List.reverse_append]; rfl⟩ ?_
      (hasAny_concat_val _ _ _ false (by decide) hdn hdd (by decide))
    · rw [show (mkSIG n false "four times daily").data =
        "Take ".data ++ myDigits n ++ (" tablet ".data ++ "four times daily".data) from rfl,
        List.map_append, List.map_append, map_toLower_digits hdd]
      rfl
    · unfold extractFrequency
      rw [hasAny_concat_val _ _ _ false (by decide) hdn hdd (by decide),
        hasAny_concat_val _ _ _ true (by decide) hdn hdd (by decide)]
      rfl
  · refine c3_main n days 4 hn _ (" tablets ".data ++ "four times daily".data)
      ("s four times daily".data)
      rfl ?_ (by decide) ⟨_, by rw [List.reverse_append]; rfl⟩ ?_
      (hasAny_concat_val _ _ _ false (by decide) hdn hdd (by decide))
    · rw [show (mkSIG n true "four times daily").data =
        "Take ".data ++ myDigits n ++ (" tablets ".data ++ "four times daily".data) from rfl,
        List.map_append, List.map_append, map_toLower_digits hdd]
      rfl
    · unfold extractFrequency
      rw [hasAny_concat_val _ _ _ false (by decide) hdn hdd (by decide),
        hasAny_concat_val _ _ _ true (by decide) hdn hdd (by decide)]
      rfl

theorem c3_quantity_formula_witness :
    0 < 2 ∧ 0 < 7 ∧ (("three times daily", 3) ∈ freqTable) ∧
    (calculateDispenseQuantity (mkSIG 2 true "three times daily") 7).totalQuantity =
      ⌈(2 * 3 * 7 : ℚ)⌉ :=
  ⟨by norm_num, by norm_num, by decide,
   c3_quantity_formula 2 7 true "three times daily" 3 (by norm_num) (by norm_num) (by decide)⟩

end RxCalc
